import Mathlib

/-!
Verification of the beartype code-generation core against its specification.

This file gives a shallow embedding of the three source modules

  * `beartype/_util/cache/utilcachelru.py`   (the `LRUCacheStrong` class),
  * `beartype/_decor/_code/_pep/_pepsnip.py` (the code-snippet templates and
    placeholder constants),
  * `beartype/_util/cls/utilclstest.py`      (the `is_type_subclass` tester),

and proves the stated behavioural properties about them.

Modelling conventions:

  * A Python `dict` preserves insertion order, so `LRUCacheStrong` (a `dict`
    subclass) is embedded as an ordered association list `entries`, oldest
    (least-recently-used) binding first, newest (most-recently-used) last.
    `dict.__delitem__` removes the unique binding of a key preserving the
    order of the others; `dict.__setitem__` on an absent key appends at the
    end; `next(dict.__iter__(d))` is the first key.
  * Dynamically typed Python arguments are embedded as small inductive sum
    types (`PyCapacity`, `PyVal`, `PyObj`); raising is `Except`/`Option`.
-/

-- ....................  LRU cache : data model  ....................

/-- The cache-specific configuration exception raised by
`LRUCacheStrong.__init__` (from `beartype.roar`). -/
structure BeartypeUtilLRUCacheException where
  msg : String
deriving DecidableEq

/-- A value passed as the `size` argument of `LRUCacheStrong.__init__`:
either a Python `int` or some non-integer object (identified by its repr). -/
inductive PyCapacity where
  | int (n : Int)
  | nonInt (r : String)
deriving DecidableEq

/-- Embedding of the `LRUCacheStrong` dict subclass: the underlying dict is
the insertion-ordered association list `entries` (least-recently-used first,
most-recently-used last) and `size` is the `_size` capacity attribute. -/
@[ext]
structure LRUCacheStrong (K V : Type) where
  entries : List (K × V)
  size : Nat
deriving DecidableEq

variable {K V : Type} [DecidableEq K]

/-- `dict.__contains__`: whether `k` is a key of the ordered dict `l`. -/
def containsKey (k : K) (l : List (K × V)) : Bool :=
  l.any (fun p => decide (p.1 = k))

/-- `dict.__delitem__`: remove the (first, hence under key-uniqueness the
unique) binding of `k`, preserving the order of all other bindings. -/
def delKey (k : K) (l : List (K × V)) : List (K × V) :=
  l.eraseP (fun p => decide (p.1 = k))

/-- `dict.__getitem__`: the value bound to `k`, if any. -/
def findVal (k : K) (l : List (K × V)) : Option (K × V) :=
  l.find? (fun p => decide (p.1 = k))

/-- `LRUCacheStrong.__init__`, embedded over dynamically-typed capacities:
rejects a non-integer capacity, rejects a non-positive integer capacity, and
otherwise produces the empty cache with that capacity. -/
def LRUCacheStrong.init (K V : Type) (size : PyCapacity) :
    Except BeartypeUtilLRUCacheException (LRUCacheStrong K V) :=
  match size with
  | .nonInt r =>
      .error ⟨"LRU cache capacity " ++ r ++ " not integer."⟩
  | .int n =>
      if n ≤ 0 then
        .error ⟨"LRU cache capacity " ++ toString n ++ " not positive."⟩
      else
        .ok ⟨[], n.toNat⟩

/-- `LRUCacheStrong.__getitem__`: on a hit, return the cached value and the
cache state after the key is deleted and re-added at the tail (refreshing its
recency); on a miss return `none` (the `KeyError` case). -/
def LRUCacheStrong.getitem (c : LRUCacheStrong K V) (k : K) :
    Option (V × LRUCacheStrong K V) :=
  match findVal k c.entries with
  | none => none
  | some p => some (p.2, ⟨delKey k c.entries ++ [(k, p.2)], c.size⟩)

/-- `LRUCacheStrong.__setitem__`: delete the key if already present, re-add
the binding at the tail, then, if the cache now exceeds its capacity, delete
the first (least-recently-used) binding. -/
def LRUCacheStrong.setitem (c : LRUCacheStrong K V) (k : K) (v : V) :
    LRUCacheStrong K V :=
  let es1 := if containsKey k c.entries then delKey k c.entries else c.entries
  let es2 := es1 ++ [(k, v)]
  let es3 := if c.size < es2.length then es2.tail else es2
  ⟨es3, c.size⟩

/-- Fold a sequence of `put` operations over a cache. -/
def putList (c : LRUCacheStrong K V) (ps : List (K × V)) : LRUCacheStrong K V :=
  ps.foldl (fun c p => c.setitem p.1 p.2) c

-- ....................  LRU cache : basic lemmas  ....................

theorem containsKey_eq_false_iff (k : K) (l : List (K × V)) :
    containsKey k l = false ↔ k ∉ l.map Prod.fst := by
  rw [← Bool.not_eq_true]
  simp [containsKey, List.any_eq_true, List.mem_map]

theorem containsKey_eq_true_iff (k : K) (l : List (K × V)) :
    containsKey k l = true ↔ k ∈ l.map Prod.fst := by
  rw [← not_iff_not, Bool.not_eq_true, containsKey_eq_false_iff]

theorem setitem_size (c : LRUCacheStrong K V) (k : K) (v : V) :
    (c.setitem k v).size = c.size := rfl

theorem putList_size (c : LRUCacheStrong K V) (ps : List (K × V)) :
    (putList c ps).size = c.size := by
  induction ps generalizing c with
  | nil => rfl
  | cons p ps ih => simpa [putList, List.foldl_cons] using ih (c.setitem p.1 p.2)

/-- A `put` of an absent key on a cache that still has room appends the new
binding at the tail and evicts nothing. -/
theorem setitem_fresh_not_full (c : LRUCacheStrong K V) (k : K) (v : V)
    (hfresh : containsKey k c.entries = false)
    (hroom : c.entries.length < c.size) :
    (c.setitem k v).entries = c.entries ++ [(k, v)] := by
  have hlen : ¬ c.size < (c.entries ++ [(k, v)]).length := by
    simp only [List.length_append, List.length_cons, List.length_nil]
    omega
  simp [LRUCacheStrong.setitem, hfresh, hlen]
  intro h
  exact absurd h (by omega)

/-- A `put` of an absent key on a full cache appends the new binding at the
tail and then evicts exactly the head (least-recently-used) binding. -/
theorem setitem_fresh_full (c : LRUCacheStrong K V) (k : K) (v : V)
    (hfresh : containsKey k c.entries = false)
    (hfull : c.entries.length = c.size) :
    (c.setitem k v).entries = (c.entries ++ [(k, v)]).tail := by
  have hlen : c.size < (c.entries ++ [(k, v)]).length := by
    simp only [List.length_append, List.length_cons, List.length_nil]
    omega
  simp [LRUCacheStrong.setitem, hfresh, hlen]
  intro h
  exact absurd h (by omega)

theorem putList_append (c : LRUCacheStrong K V) (l l' : List (K × V)) :
    putList c (l ++ l') = putList (putList c l) l' := by
  simp [putList, List.foldl_append]

/-- Filling an empty cache of capacity `C` with at most `C` distinct keys
stores exactly those bindings in insertion order, with no eviction. -/
theorem putList_fill (C : Nat) (ps : List (K × V))
    (hnd : (ps.map Prod.fst).Nodup) (hlen : ps.length ≤ C) :
    putList (⟨[], C⟩ : LRUCacheStrong K V) ps = ⟨ps, C⟩ := by
  induction ps using List.reverseRecOn with
  | nil => rfl
  | append_singleton ps p ih =>
      rw [List.map_append] at hnd
      have h3 := List.nodup_append.mp hnd
      have hlen' : ps.length ≤ C := by
        rw [List.length_append] at hlen
        omega
      have hfresh : containsKey p.1 ps = false := by
        rw [containsKey_eq_false_iff]
        intro hmem
        exact h3.2.2 hmem (by simp)
      have hroom : ps.length < C := by
        rw [List.length_append] at hlen
        simp only [List.length_cons, List.length_nil] at hlen
        omega
      rw [putList_append, ih h3.1 hlen']
      have h2 := setitem_fresh_not_full (⟨ps, C⟩ : LRUCacheStrong K V) p.1 p.2
        hfresh hroom
      show LRUCacheStrong.setitem ⟨ps, C⟩ p.1 p.2 = _
      exact LRUCacheStrong.ext h2 rfl

/-- Deleting the binding of one key leaves the presence of every other key
unchanged (the deleted binding's key differs from the tested key). -/
theorem containsKey_delKey_ne (k k₂ : K) (l : List (K × V)) (hne : k₂ ≠ k) :
    containsKey k₂ (delKey k l) = containsKey k₂ l := by
  induction l with
  | nil => rfl
  | cons q t ih =>
      by_cases hq : q.1 = k
      · rw [delKey, List.eraseP_cons_of_pos (by simp [hq])]
        have hq2 : ¬ q.1 = k₂ := by rw [hq]; exact fun h => hne h.symm
        simp [containsKey, hq2]
      · rw [delKey, List.eraseP_cons_of_neg (by simp [hq])]
        simp only [containsKey, List.any_cons] at ih ⊢
        rw [← delKey, ih]

/-- A successful `get` returns the cached value and the refreshed cache. -/
theorem getitem_eq_some (c : LRUCacheStrong K V) (k : K) (v : V)
    (c₂ : LRUCacheStrong K V) (h : c.getitem k = some (v, c₂)) :
    c₂ = ⟨delKey k c.entries ++ [(k, v)], c.size⟩ ∧
    containsKey k c.entries = true := by
  unfold LRUCacheStrong.getitem at h
  cases hf : findVal k c.entries with
  | none => rw [hf] at h; exact absurd h (by simp)
  | some p =>
      have hf' : List.find? (fun q => decide (q.1 = k)) c.entries = some p := hf
      rw [hf] at h
      simp only [Option.some.injEq, Prod.mk.injEq] at h
      constructor
      · rw [← h.1, ← h.2]
      · have hpk := List.find?_some hf'
        rw [containsKey, List.any_eq_true]
        exact ⟨p, List.mem_of_find?_eq_some hf', hpk⟩

/-- A `put` of an already-present key deletes the old binding and re-adds the
new binding at the tail, evicting nothing when the cache is within capacity. -/
theorem setitem_present (c : LRUCacheStrong K V) (k : K) (w : V)
    (hmem : containsKey k c.entries = true)
    (hcap : c.entries.length ≤ c.size) :
    (c.setitem k w).entries = delKey k c.entries ++ [(k, w)] := by
  obtain ⟨p, hp, hpk⟩ := List.any_eq_true.mp hmem
  have hlend : (delKey k c.entries).length = c.entries.length - 1 :=
    List.length_eraseP_of_mem hp hpk
  have hne : c.entries ≠ [] := by
    intro h
    rw [h] at hp
    exact absurd hp (List.not_mem_nil p)
  have hpos : 1 ≤ c.entries.length := List.length_pos.mpr hne
  have hc : ¬ c.size < (delKey k c.entries ++ [(k, w)]).length := by
    simp only [List.length_append, List.length_cons, List.length_nil, hlend]
    omega
  simp [LRUCacheStrong.setitem, hmem, delKey, hc]
  intro h
  rw [List.length_eraseP_of_mem hp hpk] at h
  exact absurd h (by omega)

/-- C1: for every LRU cache of capacity `C ≥ 1`, after `put`ting `C + 1`
distinct previously-absent keys in order, the first-inserted key is absent,
the remaining `C` keys are all present in recency order (most-recent-last:
the surviving entries are exactly the insertion sequence minus its head), and
the overflowing `put` evicted exactly one entry, the least-recently-used
(earliest-inserted, never re-accessed) one. -/
theorem lru_overflow_evicts_lru {K V : Type} [DecidableEq K]
    (C : Nat) (hC : 1 ≤ C) (ps : List (K × V))
    (hlen : ps.length = C + 1) (hnd : (ps.map Prod.fst).Nodup) :
    (putList (⟨[], C⟩ : LRUCacheStrong K V) ps).entries = ps.tail ∧
    (∀ p0, ps.head? = some p0 →
      containsKey p0.1 (putList (⟨[], C⟩ : LRUCacheStrong K V) ps).entries
        = false) ∧
    (∀ p ∈ ps.tail,
      containsKey p.1 (putList (⟨[], C⟩ : LRUCacheStrong K V) ps).entries
        = true) ∧
    (putList (⟨[], C⟩ : LRUCacheStrong K V) ps).entries.length = C := by
  have he : (putList (⟨[], C⟩ : LRUCacheStrong K V) ps).entries = ps.tail := by
    rcases List.eq_nil_or_concat ps with h | ⟨ps', p, rfl⟩
    · rw [h] at hlen; exact absurd hlen (by simp)
    · rw [List.concat_eq_append] at hlen hnd ⊢
      rw [List.map_append] at hnd
      have h3 := List.nodup_append.mp hnd
      have hlen' : ps'.length = C := by
        rw [List.length_append] at hlen
        simp only [List.length_cons, List.length_nil] at hlen
        omega
      have hfresh : containsKey p.1 ps' = false := by
        rw [containsKey_eq_false_iff]
        intro hm
        exact h3.2.2 hm (by simp)
      rw [putList_append, putList_fill C ps' h3.1 (le_of_eq hlen')]
      have h2 := setitem_fresh_full (⟨ps', C⟩ : LRUCacheStrong K V) p.1 p.2
        hfresh hlen'
      show (LRUCacheStrong.setitem ⟨ps', C⟩ p.1 p.2).entries = _
      rw [h2]
  refine ⟨he, ?_, ?_, ?_⟩
  · intro p0 h0
    rw [he, containsKey_eq_false_iff]
    cases ps with
    | nil => exact absurd h0 (by simp)
    | cons q t =>
        simp only [List.head?_cons, Option.some.injEq] at h0
        rw [← h0]
        simp only [List.map_cons, List.nodup_cons] at hnd
        simpa using hnd.1
  · intro p hp
    rw [he, containsKey_eq_true_iff]
    exact List.mem_map_of_mem Prod.fst hp
  · rw [he, List.length_tail, hlen]
    omega

/-- Closed witness for `lru_overflow_evicts_lru`: capacity 2, keys 10, 20, 30
inserted in order; key 10 is evicted and keys 20, 30 remain in order. -/
theorem lru_overflow_evicts_lru_witness :
    (putList (⟨[], 2⟩ : LRUCacheStrong Nat Nat)
        [(10, 1), (20, 2), (30, 3)]).entries = [(20, 2), (30, 3)] ∧
    (∀ p0, ([(10, 1), (20, 2), (30, 3)] : List (Nat × Nat)).head? = some p0 →
      containsKey p0.1 (putList (⟨[], 2⟩ : LRUCacheStrong Nat Nat)
        [(10, 1), (20, 2), (30, 3)]).entries = false) ∧
    (∀ p ∈ ([(10, 1), (20, 2), (30, 3)] : List (Nat × Nat)).tail,
      containsKey p.1 (putList (⟨[], 2⟩ : LRUCacheStrong Nat Nat)
        [(10, 1), (20, 2), (30, 3)]).entries = true) ∧
    (putList (⟨[], 2⟩ : LRUCacheStrong Nat Nat)
        [(10, 1), (20, 2), (30, 3)]).entries.length = 2 :=
  lru_overflow_evicts_lru 2 (by decide) [(10, 1), (20, 2), (30, 3)]
    (by decide) (by decide)

/-- C2: any successful `get` moves the accessed key to the most-recently-used
(tail) position preserving the key set; a `put` of an already-present key
refreshes its recency before insertion; consequently, on a full cache whose
least-recently-used key is `k0`, inserting a fresh key evicts `k0` when `k0`
was not re-accessed, but evicts the next-least-recently-used key `k1` instead
when a `get` of `k0` intervened. -/
theorem lru_get_refreshes_recency {K V : Type} [DecidableEq K]
    (c : LRUCacheStrong K V) (k0 k1 k' : K) (v0 v1 w' : V)
    (rest : List (K × V))
    (hsh : c.entries = (k0, v0) :: (k1, v1) :: rest)
    (hnd : (c.entries.map Prod.fst).Nodup)
    (hfull : c.entries.length = c.size)
    (hk' : containsKey k' c.entries = false) :
    (∀ k v c₂, c.getitem k = some (v, c₂) →
      c₂.entries = delKey k c.entries ++ [(k, v)] ∧
      c₂.entries.getLast? = some (k, v) ∧
      ∀ k₂, containsKey k₂ c₂.entries = containsKey k₂ c.entries) ∧
    (∀ k w, containsKey k c.entries = true →
      (c.setitem k w).entries = delKey k c.entries ++ [(k, w)]) ∧
    ((c.setitem k' w').entries = (k1, v1) :: (rest ++ [(k', w')]) ∧
      containsKey k0 (c.setitem k' w').entries = false) ∧
    (∃ c₂, c.getitem k0 = some (v0, c₂) ∧
      (c₂.setitem k' w').entries = rest ++ [(k0, v0), (k', w')] ∧
      containsKey k0 (c₂.setitem k' w').entries = true ∧
      containsKey k1 (c₂.setitem k' w').entries = false) := by
  -- key disequalities extracted from nodup-ness and freshness
  rw [hsh] at hnd
  simp only [List.map_cons, List.nodup_cons, List.mem_cons] at hnd
  have hne01 : k0 ≠ k1 := fun h => hnd.1 (Or.inl h)
  have h0rest : k0 ∉ rest.map Prod.fst := fun h => hnd.1 (Or.inr h)
  have h1rest : k1 ∉ rest.map Prod.fst := hnd.2.1
  have hk'mem : k' ∉ (c.entries.map Prod.fst) := by
    rw [← containsKey_eq_false_iff]; exact hk'
  rw [hsh] at hk'mem
  simp only [List.map_cons, List.mem_cons] at hk'mem
  have hne0' : k0 ≠ k' := fun h => hk'mem (Or.inl h.symm)
  have hne1' : k1 ≠ k' := fun h => hk'mem (Or.inr (Or.inl h.symm))
  have hrest' : k' ∉ rest.map Prod.fst := fun h => hk'mem (Or.inr (Or.inr h))
  refine ⟨?_, ?_, ?_, ?_⟩
  · -- get refreshes recency
    intro k v c₂ hget
    obtain ⟨hc₂, hkmem⟩ := getitem_eq_some c k v c₂ hget
    subst hc₂
    refine ⟨rfl, List.getLast?_concat _, ?_⟩
    intro k₂
    by_cases hk₂ : k₂ = k
    · subst hk₂
      rw [hkmem]
      rw [containsKey, List.any_append]
      simp [containsKey]
    · show containsKey k₂ (delKey k c.entries ++ [(k, v)]) = _
      rw [containsKey, List.any_append, ← containsKey, ← containsKey,
        containsKey_delKey_ne k k₂ c.entries hk₂]
      have : containsKey k₂ [(k, v)] = false := by
        simp [containsKey]
        exact fun h => hk₂ h.symm
      rw [this, Bool.or_false]
  · -- put of a present key refreshes before inserting
    intro k w hkmem
    exact setitem_present c k w hkmem (le_of_eq hfull)
  · -- without a get: the LRU key k0 is evicted
    have h2 := setitem_fresh_full c k' w' hk' hfull
    rw [hsh] at h2
    constructor
    · rw [h2]; rfl
    · rw [h2]
      show containsKey k0 ((k1, v1) :: (rest ++ [(k', w')])) = false
      rw [containsKey_eq_false_iff]
      simp only [List.map_cons, List.map_append, List.mem_cons,
        List.mem_append, List.map_cons, List.map_nil, List.mem_singleton]
      rintro (h | h | h | h)
      · exact hne01 h
      · exact h0rest h
      · exact hne0' h
      · exact absurd h (List.not_mem_nil k0)
  · -- with a get of k0 first: k0 survives and k1 is evicted instead
    have hfind : findVal k0 c.entries = some (k0, v0) := by
      rw [hsh, findVal]
      exact List.find?_cons_of_pos _ (by simp)
    have hget : c.getitem k0 =
        some (v0, ⟨delKey k0 c.entries ++ [(k0, v0)], c.size⟩) := by
      rw [LRUCacheStrong.getitem, hfind]
    have hdel : delKey k0 c.entries = (k1, v1) :: rest := by
      rw [hsh, delKey]
      exact List.eraseP_cons_of_pos (by simp)
    refine ⟨_, hget, ?_, ?_, ?_⟩
    all_goals rw [hdel]
    · -- the put on the refreshed cache evicts k1, keeping k0
      have hfr : containsKey k'
          (((k1, v1) :: rest) ++ [(k0, v0)]) = false := by
        rw [containsKey_eq_false_iff]
        simp only [List.map_append, List.map_cons, List.map_nil,
          List.mem_append, List.mem_cons, List.mem_singleton]
        rintro ((h | h) | h | h)
        · exact hne1' h.symm
        · exact hrest' h
        · exact hne0' h.symm
        · exact absurd h (List.not_mem_nil k')
      have hful : (((k1, v1) :: rest) ++ [(k0, v0)]).length = c.size := by
        rw [← hfull, hsh]
        simp
      have h2 := setitem_fresh_full
        (⟨((k1, v1) :: rest) ++ [(k0, v0)], c.size⟩ : LRUCacheStrong K V)
        k' w' hfr hful
      rw [h2]
      simp
    · -- k0 is still present afterwards
      have hfr : containsKey k'
          (((k1, v1) :: rest) ++ [(k0, v0)]) = false := by
        rw [containsKey_eq_false_iff]
        simp only [List.map_append, List.map_cons, List.map_nil,
          List.mem_append, List.mem_cons, List.mem_singleton]
        rintro ((h | h) | h | h)
        · exact hne1' h.symm
        · exact hrest' h
        · exact hne0' h.symm
        · exact absurd h (List.not_mem_nil k')
      have hful : (((k1, v1) :: rest) ++ [(k0, v0)]).length = c.size := by
        rw [← hfull, hsh]
        simp
      have h2 := setitem_fresh_full
        (⟨((k1, v1) :: rest) ++ [(k0, v0)], c.size⟩ : LRUCacheStrong K V)
        k' w' hfr hful
      rw [h2]
      rw [containsKey_eq_true_iff]
      simp
    · -- k1 is the entry that was evicted
      have hfr : containsKey k'
          (((k1, v1) :: rest) ++ [(k0, v0)]) = false := by
        rw [containsKey_eq_false_iff]
        simp only [List.map_append, List.map_cons, List.map_nil,
          List.mem_append, List.mem_cons, List.mem_singleton]
        rintro ((h | h) | h | h)
        · exact hne1' h.symm
        · exact hrest' h
        · exact hne0' h.symm
        · exact absurd h (List.not_mem_nil k')
      have hful : (((k1, v1) :: rest) ++ [(k0, v0)]).length = c.size := by
        rw [← hfull, hsh]
        simp
      have h2 := setitem_fresh_full
        (⟨((k1, v1) :: rest) ++ [(k0, v0)], c.size⟩ : LRUCacheStrong K V)
        k' w' hfr hful
      rw [h2]
      show containsKey k1 ((((k1, v1) :: rest) ++ [(k0, v0)] ++ [(k', w')]).tail)
        = false
      rw [containsKey_eq_false_iff]
      simp only [List.cons_append, List.tail_cons, List.map_append,
        List.map_cons, List.map_nil, List.mem_append, List.mem_cons,
        List.mem_singleton]
      rintro ((h | h | h) | h | h)
      · exact h1rest h
      · exact hnd.1 (Or.inl h.symm)
      · exact absurd h (List.not_mem_nil k1)
      · exact hne1' h
      · exact absurd h (List.not_mem_nil k1)

/-- Closed witness for `lru_get_refreshes_recency`: a full capacity-2 cache
holding keys 10 then 20; after a `get` of 10, inserting key 30 evicts 20. -/
theorem lru_get_refreshes_recency_witness :
    ((⟨[(10, 1), (20, 2)], 2⟩ : LRUCacheStrong Nat Nat).setitem 30 3).entries
        = [(20, 2), (30, 3)] ∧
    (∃ c₂, (⟨[(10, 1), (20, 2)], 2⟩ : LRUCacheStrong Nat Nat).getitem 10 =
        some (1, c₂) ∧
      (c₂.setitem 30 3).entries = [(10, 1), (30, 3)] ∧
      containsKey 10 (c₂.setitem 30 3).entries = true ∧
      containsKey 20 (c₂.setitem 30 3).entries = false) := by
  have h := lru_get_refreshes_recency
    (⟨[(10, 1), (20, 2)], 2⟩ : LRUCacheStrong Nat Nat) 10 20 30 1 2 3 []
    rfl (by decide) rfl (by decide)
  exact ⟨h.2.2.1.1, h.2.2.2⟩

/-- C3: constructing `LRUCacheStrong` with a non-integer capacity or with an
integer capacity `≤ 0` raises the cache-specific configuration exception,
while any integer capacity `≥ 1` yields an initially empty cache of exactly
that capacity. -/
theorem lru_init_validates (r : String) (m n : Int)
    (hm : m ≤ 0) (hn : 1 ≤ n) :
    (∃ e, LRUCacheStrong.init Nat Nat (PyCapacity.nonInt r) =
      Except.error e) ∧
    (∃ e, LRUCacheStrong.init Nat Nat (PyCapacity.int m) =
      Except.error e) ∧
    (LRUCacheStrong.init Nat Nat (PyCapacity.int n) =
      Except.ok ⟨[], n.toNat⟩ ∧ (n.toNat : Int) = n) := by
  refine ⟨?_, ?_, ?_, ?_⟩
  · exact ⟨⟨"LRU cache capacity " ++ r ++ " not integer."⟩, rfl⟩
  · refine ⟨⟨"LRU cache capacity " ++ toString m ++ " not positive."⟩, ?_⟩
    simp [LRUCacheStrong.init, hm]
  · have hn' : ¬ n ≤ 0 := by omega
    simp [LRUCacheStrong.init, hn']
  · omega

/-- Closed witness for `lru_init_validates` at capacities `"0.5"`, `0`, `1`. -/
theorem lru_init_validates_witness :
    (∃ e, LRUCacheStrong.init Nat Nat (PyCapacity.nonInt "0.5") =
      Except.error e) ∧
    (∃ e, LRUCacheStrong.init Nat Nat (PyCapacity.int 0) =
      Except.error e) ∧
    (LRUCacheStrong.init Nat Nat (PyCapacity.int 1) =
      Except.ok ⟨[], (1 : Int).toNat⟩ ∧ ((1 : Int).toNat : Int) = 1) :=
  lru_init_validates "0.5" 0 1 (by decide) (by decide)

-- ....................  Generated-check semantics : data model  ...............

/-- A small universe of Python runtime values sufficient for the pith checks
generated from `_pepsnip.py` templates. -/
inductive PyVal where
  | int (n : Int)
  | str (s : String)
  | tuple (elems : List PyVal)
  | list (elems : List PyVal)

/-- The plain (non-polymorphic) types appearing as `isinstance` second
arguments in the generated checks. -/
inductive PyType where
  | int
  | str
  | tuple
  | list
deriving DecidableEq

/-- Python `isinstance(v, t)` for a single plain type. -/
def isinstance : PyVal → PyType → Bool
  | .int _, .int => true
  | .str _, .str => true
  | .tuple _, .tuple => true
  | .list _, .list => true
  | _, _ => false

/-- Python `isinstance(v, ts)` against a tuple of plain types: true iff the
value is an instance of at least one of them. -/
def isinstanceAny (v : PyVal) (ts : List PyType) : Bool :=
  ts.any (isinstance v)

/-- Python truthiness (`bool(v)`), as used by the `not pith` guards of the
sequence and empty-tuple snippets. -/
def pyBool : PyVal → Bool
  | .int n => decide (n ≠ 0)
  | .str s => !s.isEmpty
  | .tuple es => !es.isEmpty
  | .list es => !es.isEmpty

/-- Python `len(v)`, defined only on sized values. -/
def pyLen : PyVal → Option Nat
  | .str s => some s.length
  | .tuple es => some es.length
  | .list es => some es.length
  | _ => none

/-- Python `v[i]` for a non-negative index: `none` is an `IndexError` (or a
`TypeError` on non-indexable values). -/
def pyGetItem : PyVal → Nat → Option PyVal
  | .tuple es, i => es.get? i
  | .list es, i => es.get? i
  | _, _ => none

/-- Python `a % b` on non-negative integers: `none` is `ZeroDivisionError`. -/
def pyMod (a b : Nat) : Option Nat :=
  if b = 0 then none else some (a % b)

-- ....................  Union checks (C4)  ....................

/-- Modelled from the spec: the union assembly of `pep_code_check_hint` (not
under `src/`) splices the `PEP484_CODE_HINT_UNION_CHILD_NONPEP` snippet once,
testing the pith by a single `isinstance` against the precomputed tuple of
all plain-type children, followed by one `PEP484_CODE_HINT_UNION_CHILD_PEP`
disjunct per polymorphic child, the whole being a left-to-right
short-circuiting disjunction. -/
def unionCheck (plainTypes : List PyType) (pepChecks : List (PyVal → Bool))
    (v : PyVal) : Bool :=
  isinstanceAny v plainTypes || pepChecks.any (fun f => f v)

/-- C4: for a union of the two plain types `A` and `B`, the generated check
holds of `v` iff `isinstance(v, A)` or `isinstance(v, B)` holds, is false on
a value that is an instance of neither, and is literally the single
`isinstance` disjunction over the precomputed pair, with no polymorphic
children tested. -/
theorem union_plain_pair_check (A B : PyType) (v : PyVal) :
    (unionCheck [A, B] [] v = true ↔
      (isinstance v A = true ∨ isinstance v B = true)) ∧
    (isinstance v A = false → isinstance v B = false →
      unionCheck [A, B] [] v = false) ∧
    unionCheck [A, B] [] v = (isinstance v A || isinstance v B) := by
  refine ⟨?_, ?_, ?_⟩
  · simp [unionCheck, isinstanceAny]
  · intro hA hB
    simp [unionCheck, isinstanceAny, hA, hB]
  · simp [unionCheck, isinstanceAny]

/-- Closed witness for `union_plain_pair_check` at `Union[int, str]` and a
list value (an instance of neither child). -/
theorem union_plain_pair_check_witness :
    unionCheck [PyType.int, PyType.str] [] (PyVal.list []) = false :=
  (union_plain_pair_check PyType.int PyType.str (PyVal.list [])).2.1 rfl rfl

-- ....................  Sequence checks (C5, C9)  ....................

/-- Evaluation of the check generated by `PEP484585_CODE_HINT_SEQUENCE_ARGS_1`
with its child placeholder resolved to the child check applied to the
`PEP484585_CODE_HINT_SEQUENCE_ARGS_1_PITH_CHILD_EXPR` expression
`pith[random_int % len(pith)]`:
`isinstance(pith, origin) and (not pith or child(pith[random_int % len(pith)]))`.
Evaluation is left-to-right and short-circuiting; `none` means a raised
exception (`ZeroDivisionError` from `%` or `IndexError` from indexing). -/
def seqCheck (origin : PyType) (child : PyVal → Option Bool) (randomInt : Nat)
    (pith : PyVal) : Option Bool :=
  if isinstance pith origin = false then some false
  else if pyBool pith = false then some true
  else
    match pyLen pith with
    | none => none
    | some n =>
      match pyMod randomInt n with
      | none => none
      | some i =>
        match pyGetItem pith i with
        | none => none
        | some e => child e

/-- C5: the sequence check is `isinstance` conjoined with
`empty or child-at-sampled-index`; hence for `list`-origin hints it accepts
the empty list, accepts every list all of whose elements satisfy the child
check, rejects every non-empty list none of whose elements satisfies it —
each regardless of the sampled random integer — and rejects any value not of
the origin type. -/
theorem sequence_check_semantics (child : PyVal → Bool) (r : Nat)
    (elems : List PyVal)
    (hall : ∀ e ∈ elems, child e = true) :
    seqCheck PyType.list (fun e => some (child e)) r (PyVal.list []) =
      some true ∧
    seqCheck PyType.list (fun e => some (child e)) r (PyVal.list elems) =
      some true ∧
    (∀ elems₂ : List PyVal, (∀ e ∈ elems₂, child e = false) → elems₂ ≠ [] →
      seqCheck PyType.list (fun e => some (child e)) r (PyVal.list elems₂) =
        some false) ∧
    (∀ v, isinstance v PyType.list = false →
      seqCheck PyType.list (fun e => some (child e)) r v = some false) := by
  have hsample : ∀ (es : List PyVal), es ≠ [] →
      ∃ e, pyGetItem (PyVal.list es) (r % es.length) = some e ∧ e ∈ es := by
    intro es hne
    have hpos : 0 < es.length := List.length_pos.mpr hne
    have hlt : r % es.length < es.length := Nat.mod_lt r hpos
    have hget : es.get? (r % es.length) =
        some (es.get ⟨r % es.length, hlt⟩) := List.get?_eq_get hlt
    exact ⟨es.get ⟨r % es.length, hlt⟩, hget, List.get_mem es _ hlt⟩
  refine ⟨rfl, ?_, ?_, ?_⟩
  · cases hes : elems with
    | nil => rfl
    | cons e es =>
        rw [← hes]
        have hne : elems ≠ [] := by rw [hes]; exact List.cons_ne_nil e es
        obtain ⟨e₀, hget, hmem⟩ := hsample elems hne
        have hnb : pyBool (PyVal.list elems) = true := by
          simp [pyBool, hne]
        have hlen : pyLen (PyVal.list elems) = some elems.length := rfl
        have hmod : pyMod r elems.length = some (r % elems.length) := by
          rw [pyMod, if_neg]
          simp only [ne_eq, List.length_eq_zero]
          intro h
          exact hne (by simpa using h)
        rw [seqCheck]
        simp only [isinstance, Bool.true_eq_false, if_false, hnb,
          Bool.true_eq_false, if_false, hlen, hmod, hget]
        rw [hall e₀ hmem]
  · intro es hnone hne
    obtain ⟨e₀, hget, hmem⟩ := hsample es hne
    have hnb : pyBool (PyVal.list es) = true := by
      simp [pyBool, hne]
    have hmod : pyMod r es.length = some (r % es.length) := by
      rw [pyMod, if_neg]
      simp only [ne_eq, List.length_eq_zero]
      intro h
      exact hne (by simpa using h)
    rw [seqCheck]
    simp only [isinstance, Bool.true_eq_false, if_false, hnb,
      Bool.true_eq_false, if_false, pyLen, hmod, hget]
    rw [hnone e₀ hmem]
  · intro v hv
    rw [seqCheck, if_pos hv]

/-- Closed witness for `sequence_check_semantics`: `List[int]` at random
draw 1, the all-conforming list `[4, 5]`, the none-conforming list `["a"]`,
and the non-list value `7`. -/
theorem sequence_check_semantics_witness :
    seqCheck PyType.list (fun e => some (isinstance e PyType.int)) 1
      (PyVal.list []) = some true ∧
    seqCheck PyType.list (fun e => some (isinstance e PyType.int)) 1
      (PyVal.list [PyVal.int 4, PyVal.int 5]) = some true ∧
    (∀ elems₂ : List PyVal, (∀ e ∈ elems₂, isinstance e PyType.int = false) →
      elems₂ ≠ [] →
      seqCheck PyType.list (fun e => some (isinstance e PyType.int)) 1
        (PyVal.list elems₂) = some false) ∧
    (∀ v, isinstance v PyType.list = false →
      seqCheck PyType.list (fun e => some (isinstance e PyType.int)) 1 v =
        some false) :=
  sequence_check_semantics (fun e => isinstance e PyType.int) 1
    [PyVal.int 4, PyVal.int 5] (by intro e he; fin_cases he <;> rfl)

/-- On a non-empty list, the sampled-index expression
`pith[random_int % len(pith)]` always yields some element of the list. -/
theorem pyGetItem_list_mod (es : List PyVal) (r : Nat) (hne : es ≠ []) :
    ∃ e, pyGetItem (PyVal.list es) (r % es.length) = some e ∧ e ∈ es := by
  have hpos : 0 < es.length := List.length_pos.mpr hne
  have hlt : r % es.length < es.length := Nat.mod_lt r hpos
  have hget : es.get? (r % es.length) =
      some (es.get ⟨r % es.length, hlt⟩) := List.get?_eq_get hlt
  exact ⟨es.get ⟨r % es.length, hlt⟩, hget, List.get_mem es _ hlt⟩

/-- C9: evaluating the generated sequence check never raises — the
`not pith or ...` guard ensures the `random_int % len(pith)` expression runs
only on a non-empty pith — and whenever the element access executes, the
modulus is non-zero and the computed index is strictly within bounds. -/
theorem sequence_check_index_safe (child : PyVal → Bool) (r : Nat)
    (v : PyVal) :
    seqCheck PyType.list (fun e => some (child e)) r v ≠ none ∧
    (∀ elems : List PyVal, v = PyVal.list elems → elems ≠ [] →
      r % elems.length < elems.length ∧
      (pyGetItem v (r % elems.length)).isSome = true) := by
  constructor
  · cases v with
    | int n => simp [seqCheck, isinstance]
    | str s => simp [seqCheck, isinstance]
    | tuple es => simp [seqCheck, isinstance]
    | list es =>
        cases hes : es with
        | nil => simp [seqCheck, isinstance, pyBool]
        | cons e t =>
            have hne : es ≠ [] := by rw [hes]; exact List.cons_ne_nil e t
            obtain ⟨e₀, hget, hmem⟩ := pyGetItem_list_mod es r hne
            have hnb : pyBool (PyVal.list es) = true := by
              simp [pyBool, hne]
            have hmod : pyMod r es.length = some (r % es.length) := by
              rw [pyMod, if_neg]
              simp only [ne_eq, List.length_eq_zero]
              intro h
              exact hne (by simpa using h)
            rw [← hes, seqCheck]
            simp only [isinstance, Bool.true_eq_false, if_false, hnb, pyLen,
              hmod, hget]
            simp
  · intro elems hv hne
    subst hv
    have hpos : 0 < elems.length := List.length_pos.mpr hne
    refine ⟨Nat.mod_lt r hpos, ?_⟩
    obtain ⟨e₀, hget, _⟩ := pyGetItem_list_mod elems r hne
    rw [hget]
    rfl

/-- Closed witness for `sequence_check_index_safe` at `List[int]`, random
draw 7, and the singleton list `[3]`. -/
theorem sequence_check_index_safe_witness :
    seqCheck PyType.list (fun e => some (isinstance e PyType.int)) 7
      (PyVal.list [PyVal.int 3]) ≠ none ∧
    7 % (([PyVal.int 3] : List PyVal).length) <
      ([PyVal.int 3] : List PyVal).length ∧
    (pyGetItem (PyVal.list [PyVal.int 3])
      (7 % ([PyVal.int 3] : List PyVal).length)).isSome = true := by
  have h := sequence_check_index_safe (fun e => isinstance e PyType.int) 7
    (PyVal.list [PyVal.int 3])
  exact ⟨h.1, h.2 [PyVal.int 3] rfl (List.cons_ne_nil _ _)⟩

-- ....................  Fixed-length tuple checks (C6)  ....................

/-- The check generated for an itemized `Tuple[T1, ..., TN]` hint, assembled
from `PEP484585_CODE_HINT_TUPLE_FIXED_PREFIX` (`isinstance(pith, tuple)`),
`PEP484585_CODE_HINT_TUPLE_FIXED_LEN` (`len(pith) == N`), and one
`PEP484585_CODE_HINT_TUPLE_FIXED_NONEMPTY_CHILD` conjunct per child applied
at `PEP484585_CODE_HINT_TUPLE_FIXED_NONEMPTY_PITH_CHILD_EXPR`
(`pith[i]`). -/
def tupleFixedCheck (childChecks : List (PyVal → Bool)) (pith : PyVal) :
    Bool :=
  isinstance pith PyType.tuple &&
  decide (pyLen pith = some childChecks.length) &&
  (List.range childChecks.length).all (fun i =>
    match childChecks.get? i, pyGetItem pith i with
    | some f, some e => f e
    | _, _ => false)

/-- The check generated for the explicit empty-tuple hint form `Tuple[()]`,
assembled from `PEP484585_CODE_HINT_TUPLE_FIXED_PREFIX` and
`PEP484585_CODE_HINT_TUPLE_FIXED_EMPTY` (`not pith`). -/
def tupleEmptyCheck (pith : PyVal) : Bool :=
  isinstance pith PyType.tuple && !(pyBool pith)

/-- C6: the fixed-length tuple check accepts exactly the tuples of the right
length all of whose positional elements satisfy the corresponding child
check; the empty-tuple form accepts exactly the empty tuple; and for the
hint `Tuple[int, str]`: `(1, "x")` passes while `(1, 2)`, `(1,)` and `()`
fail. -/
theorem tuple_fixed_check_semantics (cs : List (PyVal → Bool)) (v : PyVal) :
    (tupleFixedCheck cs v = true ↔
      ∃ elems, v = PyVal.tuple elems ∧ elems.length = cs.length ∧
        (∀ i f e, cs.get? i = some f → elems.get? i = some e →
          f e = true)) ∧
    (tupleEmptyCheck v = true ↔ v = PyVal.tuple []) ∧
    tupleFixedCheck
      [fun e => isinstance e PyType.int, fun e => isinstance e PyType.str]
      (PyVal.tuple [PyVal.int 1, PyVal.str "x"]) = true ∧
    tupleFixedCheck
      [fun e => isinstance e PyType.int, fun e => isinstance e PyType.str]
      (PyVal.tuple [PyVal.int 1, PyVal.int 2]) = false ∧
    tupleFixedCheck
      [fun e => isinstance e PyType.int, fun e => isinstance e PyType.str]
      (PyVal.tuple [PyVal.int 1]) = false ∧
    tupleFixedCheck
      [fun e => isinstance e PyType.int, fun e => isinstance e PyType.str]
      (PyVal.tuple []) = false ∧
    tupleEmptyCheck (PyVal.tuple []) = true := by
  refine ⟨?_, ?_, rfl, rfl, rfl, rfl, rfl⟩
  · constructor
    · intro h
      cases v with
      | int n => exact absurd h (by simp [tupleFixedCheck, isinstance])
      | str s => exact absurd h (by simp [tupleFixedCheck, isinstance])
      | list es => exact absurd h (by simp [tupleFixedCheck, isinstance])
      | tuple elems =>
          simp only [tupleFixedCheck, isinstance, pyLen, pyGetItem,
            Bool.true_and, Bool.and_eq_true, decide_eq_true_eq,
            Option.some.injEq, List.all_eq_true] at h
          refine ⟨elems, rfl, h.1, ?_⟩
          intro i f e hf he
          have hi : i < cs.length := by
            by_contra hge
            push_neg at hge
            rw [List.get?_eq_none.mpr hge] at hf
            cases hf
          have h2 := h.2 i (List.mem_range.mpr hi)
          rw [hf, he] at h2
          exact h2
    · rintro ⟨elems, rfl, hlen, hall⟩
      simp only [tupleFixedCheck, isinstance, pyLen, pyGetItem,
        Bool.true_and, Bool.and_eq_true, decide_eq_true_eq,
        Option.some.injEq, List.all_eq_true]
      refine ⟨hlen, ?_⟩
      intro i hi
      have hic : i < cs.length := List.mem_range.mp hi
      have hie : i < elems.length := hlen ▸ hic
      have hf : cs.get? i = some (cs.get ⟨i, hic⟩) := List.get?_eq_get hic
      have he : elems.get? i = some (elems.get ⟨i, hie⟩) :=
        List.get?_eq_get hie
      rw [hf, he]
      exact hall i _ _ hf he
  · cases v with
    | int n => simp [tupleEmptyCheck, isinstance]
    | str s => simp [tupleEmptyCheck, isinstance]
    | list es => simp [tupleEmptyCheck, isinstance]
    | tuple es =>
        cases es with
        | nil => simp [tupleEmptyCheck, isinstance, pyBool]
        | cons e t => simp [tupleEmptyCheck, isinstance, pyBool]

/-- Closed witness for `tuple_fixed_check_semantics`: the four concrete
`Tuple[int, str]` evaluations and the empty-tuple form. -/
theorem tuple_fixed_check_semantics_witness :
    tupleFixedCheck
      [fun e => isinstance e PyType.int, fun e => isinstance e PyType.str]
      (PyVal.tuple [PyVal.int 1, PyVal.str "x"]) = true ∧
    tupleFixedCheck
      [fun e => isinstance e PyType.int, fun e => isinstance e PyType.str]
      (PyVal.tuple [PyVal.int 1, PyVal.int 2]) = false ∧
    tupleFixedCheck
      [fun e => isinstance e PyType.int, fun e => isinstance e PyType.str]
      (PyVal.tuple [PyVal.int 1]) = false ∧
    tupleFixedCheck
      [fun e => isinstance e PyType.int, fun e => isinstance e PyType.str]
      (PyVal.tuple []) = false ∧
    tupleEmptyCheck (PyVal.tuple []) = true :=
  (tuple_fixed_check_semantics
    [fun e => isinstance e PyType.int, fun e => isinstance e PyType.str]
    (PyVal.tuple [PyVal.int 1, PyVal.str "x"])).2.2

-- ....................  Placeholder delimiters (C7, C8)  ....................

/-- Prefix of each placeholder hint child type-checking substring. -/
def PEP_CODE_HINT_CHILD_PLACEHOLDER_PREFIX : String := "@["

/-- Suffix of each placeholder hint child type-checking substring. -/
def PEP_CODE_HINT_CHILD_PLACEHOLDER_SUFFIX : String := ")!"

/-- Prefix of each placeholder unqualified forward reference classname
substring. -/
def PEP_CODE_HINT_FORWARDREF_UNQUALIFIED_PLACEHOLDER_PREFIX : String :=
  "$\x7bFORWARDREF:"

/-- Suffix of each placeholder unqualified forward reference classname
substring. -/
def PEP_CODE_HINT_FORWARDREF_UNQUALIFIED_PLACEHOLDER_SUFFIX : String := "]?"

/-- Placeholder source substring globally replaced by the root pith name. -/
def PEP_CODE_PITH_ROOT_PARAM_NAME_PLACEHOLDER : String := "?|PITH_ROOT_NAME`^"

/-- Whether `p` is a prefix of `l` (boolean, over character lists). -/
def isPreB : List Char → List Char → Bool
  | [], _ => true
  | _ :: _, [] => false
  | a :: p, b :: l => a == b && isPreB p l

/-- Whether `p` occurs as a contiguous substring of `l` (boolean). -/
def isSubB (p : List Char) : List Char → Bool
  | [] => isPreB p []
  | b :: l => isPreB p (b :: l) || isSubB p l

/-- Whether the string `sub` occurs as a contiguous substring of `s`. -/
def strContains (s sub : String) : Bool :=
  isSubB sub.data s.data

/-- One step bound of Python `str.replace(old, new)`: scan `l` left to right,
replacing each non-overlapping occurrence of `p` by `r`; `fuel` bounds the
recursion and is adequate whenever `fuel ≥ l.length`. -/
def replaceFuel (p r : List Char) : Nat → List Char → List Char
  | _, [] => []
  | 0, l => l
  | n + 1, c :: l =>
    if isPreB p (c :: l) = true ∧ p ≠ [] then
      r ++ replaceFuel p r n (List.drop p.length (c :: l))
    else
      c :: replaceFuel p r n l

/-- Python `t.replace(p, r)`: global leftmost non-overlapping replacement. -/
def replaceList (p r l : List Char) : List Char :=
  replaceFuel p r l.length l

/-- Fuel-bounded scanner accepting concatenations of occurrences of `p` and
single non-`'?'` characters. -/
def chunkedFuel (p : List Char) : Nat → List Char → Bool
  | _, [] => true
  | 0, _ :: _ => false
  | n + 1, c :: l =>
    if isPreB p (c :: l) = true ∧ p ≠ [] then
      chunkedFuel p n (List.drop p.length (c :: l))
    else
      c != '?' && chunkedFuel p n l

/-- Modelled from the spec: a **cached template** (the output of the absent
`pep_code_check_hint` generator after structural substitution, §4.2) is a
concatenation of root-name placeholder occurrences and snippet-catalogue
text; in the catalogue of `_pepsnip.py` the character `'?'` occurs only
inside the placeholder families, and the forward-reference placeholders are
resolved before caching, so every `'?'` of a cached template starts a
root-name placeholder occurrence. -/
def chunkedBy (p l : List Char) : Bool :=
  chunkedFuel p l.length l

theorem replaceFuel_id_of_noSub (p r : List Char) (n : Nat)
    (l : List Char) (hs : isSubB p l = false) :
    replaceFuel p r n l = l := by
  induction n generalizing l with
  | zero => cases l <;> rfl
  | succ n ih =>
      cases l with
      | nil => rfl
      | cons c t =>
          rw [isSubB, Bool.or_eq_false_iff] at hs
          have hc : ¬ (isPreB p (c :: t) = true ∧ p ≠ []) := by
            intro h
            rw [hs.1] at h
            exact absurd h.1 (by simp)
          rw [replaceFuel, if_neg hc, ih t hs.2]

theorem replaceFuel_id_of_noQ (p r : List Char) (hp : p.head? = some '?')
    (n : Nat) (l : List Char) (hq : '?' ∉ l) :
    replaceFuel p r n l = l := by
  induction n generalizing l with
  | zero => cases l <;> rfl
  | succ n ih =>
      cases l with
      | nil => rfl
      | cons c t =>
          simp only [List.mem_cons, not_or] at hq
          have hc : ¬ (isPreB p (c :: t) = true ∧ p ≠ []) := by
            rintro ⟨h1, h2⟩
            cases p with
            | nil => exact h2 rfl
            | cons a q =>
                simp only [List.head?_cons, Option.some.injEq] at hp
                rw [isPreB, Bool.and_eq_true, beq_iff_eq] at h1
                exact hq.1 (by rw [← hp, h1.1])
          rw [replaceFuel, if_neg hc, ih t hq.2]

theorem replaceFuel_keeps_noQ (p r : List Char)
    (hr : '?' ∉ r) (n : Nat) (l : List Char)
    (hl : chunkedFuel p n l = true) :
    '?' ∉ replaceFuel p r n l := by
  induction n generalizing l with
  | zero =>
      cases l with
      | nil => simp [replaceFuel]
      | cons c t => exact absurd hl (by simp [chunkedFuel])
  | succ n ih =>
      cases l with
      | nil => simp [replaceFuel]
      | cons c t =>
          by_cases hc : isPreB p (c :: t) = true ∧ p ≠ []
          · rw [chunkedFuel, if_pos hc] at hl
            rw [replaceFuel, if_pos hc]
            simp only [List.mem_append, not_or]
            exact ⟨hr, ih _ hl⟩
          · rw [chunkedFuel, if_neg hc] at hl
            rw [Bool.and_eq_true, bne_iff_ne] at hl
            rw [replaceFuel, if_neg hc]
            simp only [List.mem_cons, not_or]
            exact ⟨fun h => hl.1 h.symm, ih t hl.2⟩

/-- C7: the three placeholder families use pairwise collision-free delimiter
strings — no delimiter of one family occurs as a substring of (in particular,
equals or contains) a delimiter of another family — and consequently a global
replacement of the root-name placeholder leaves every other family's
delimiter text unchanged. -/
theorem placeholder_delimiters_collision_free :
    (strContains PEP_CODE_HINT_FORWARDREF_UNQUALIFIED_PLACEHOLDER_PREFIX
      PEP_CODE_HINT_CHILD_PLACEHOLDER_PREFIX = false ∧
     strContains PEP_CODE_HINT_FORWARDREF_UNQUALIFIED_PLACEHOLDER_SUFFIX
      PEP_CODE_HINT_CHILD_PLACEHOLDER_PREFIX = false ∧
     strContains PEP_CODE_PITH_ROOT_PARAM_NAME_PLACEHOLDER
      PEP_CODE_HINT_CHILD_PLACEHOLDER_PREFIX = false) ∧
    (strContains PEP_CODE_HINT_FORWARDREF_UNQUALIFIED_PLACEHOLDER_PREFIX
      PEP_CODE_HINT_CHILD_PLACEHOLDER_SUFFIX = false ∧
     strContains PEP_CODE_HINT_FORWARDREF_UNQUALIFIED_PLACEHOLDER_SUFFIX
      PEP_CODE_HINT_CHILD_PLACEHOLDER_SUFFIX = false ∧
     strContains PEP_CODE_PITH_ROOT_PARAM_NAME_PLACEHOLDER
      PEP_CODE_HINT_CHILD_PLACEHOLDER_SUFFIX = false) ∧
    (strContains PEP_CODE_HINT_CHILD_PLACEHOLDER_PREFIX
      PEP_CODE_HINT_FORWARDREF_UNQUALIFIED_PLACEHOLDER_PREFIX = false ∧
     strContains PEP_CODE_HINT_CHILD_PLACEHOLDER_SUFFIX
      PEP_CODE_HINT_FORWARDREF_UNQUALIFIED_PLACEHOLDER_PREFIX = false ∧
     strContains PEP_CODE_PITH_ROOT_PARAM_NAME_PLACEHOLDER
      PEP_CODE_HINT_FORWARDREF_UNQUALIFIED_PLACEHOLDER_PREFIX = false) ∧
    (strContains PEP_CODE_HINT_CHILD_PLACEHOLDER_PREFIX
      PEP_CODE_HINT_FORWARDREF_UNQUALIFIED_PLACEHOLDER_SUFFIX = false ∧
     strContains PEP_CODE_HINT_CHILD_PLACEHOLDER_SUFFIX
      PEP_CODE_HINT_FORWARDREF_UNQUALIFIED_PLACEHOLDER_SUFFIX = false ∧
     strContains PEP_CODE_PITH_ROOT_PARAM_NAME_PLACEHOLDER
      PEP_CODE_HINT_FORWARDREF_UNQUALIFIED_PLACEHOLDER_SUFFIX = false) ∧
    (strContains PEP_CODE_HINT_CHILD_PLACEHOLDER_PREFIX
      PEP_CODE_PITH_ROOT_PARAM_NAME_PLACEHOLDER = false ∧
     strContains PEP_CODE_HINT_CHILD_PLACEHOLDER_SUFFIX
      PEP_CODE_PITH_ROOT_PARAM_NAME_PLACEHOLDER = false ∧
     strContains PEP_CODE_HINT_FORWARDREF_UNQUALIFIED_PLACEHOLDER_PREFIX
      PEP_CODE_PITH_ROOT_PARAM_NAME_PLACEHOLDER = false ∧
     strContains PEP_CODE_HINT_FORWARDREF_UNQUALIFIED_PLACEHOLDER_SUFFIX
      PEP_CODE_PITH_ROOT_PARAM_NAME_PLACEHOLDER = false) ∧
    (∀ repl : List Char,
      replaceList PEP_CODE_PITH_ROOT_PARAM_NAME_PLACEHOLDER.data repl
        PEP_CODE_HINT_CHILD_PLACEHOLDER_PREFIX.data =
        PEP_CODE_HINT_CHILD_PLACEHOLDER_PREFIX.data ∧
      replaceList PEP_CODE_PITH_ROOT_PARAM_NAME_PLACEHOLDER.data repl
        PEP_CODE_HINT_CHILD_PLACEHOLDER_SUFFIX.data =
        PEP_CODE_HINT_CHILD_PLACEHOLDER_SUFFIX.data ∧
      replaceList PEP_CODE_PITH_ROOT_PARAM_NAME_PLACEHOLDER.data repl
        PEP_CODE_HINT_FORWARDREF_UNQUALIFIED_PLACEHOLDER_PREFIX.data =
        PEP_CODE_HINT_FORWARDREF_UNQUALIFIED_PLACEHOLDER_PREFIX.data ∧
      replaceList PEP_CODE_PITH_ROOT_PARAM_NAME_PLACEHOLDER.data repl
        PEP_CODE_HINT_FORWARDREF_UNQUALIFIED_PLACEHOLDER_SUFFIX.data =
        PEP_CODE_HINT_FORWARDREF_UNQUALIFIED_PLACEHOLDER_SUFFIX.data) := by
  refine ⟨⟨by decide, by decide, by decide⟩, ⟨by decide, by decide, by decide⟩,
    ⟨by decide, by decide, by decide⟩, ⟨by decide, by decide, by decide⟩,
    ⟨by decide, by decide, by decide, by decide⟩, ?_⟩
  intro repl
  refine ⟨?_, ?_, ?_, ?_⟩ <;>
    exact replaceFuel_id_of_noSub _ repl _ _ (by decide)

/-- A character of a Python identifier: letters, digits or underscore. -/
def isPyIdentChar (c : Char) : Bool :=
  c.isAlpha || c.isDigit || c == '_'

/-- C8: root-name substitution on a cached template is idempotent — replacing
every occurrence of the root-name placeholder by a Python identifier and then
applying the same replacement again gives the once-replaced string — and it
is a pure function of the template and the name alone (it is defined as a
plain recursive string transformation with no other inputs). -/
theorem root_name_substitution_idempotent (t name : List Char)
    (ht : chunkedBy PEP_CODE_PITH_ROOT_PARAM_NAME_PLACEHOLDER.data t = true)
    (hname : ∀ c ∈ name, isPyIdentChar c = true) :
    replaceList PEP_CODE_PITH_ROOT_PARAM_NAME_PLACEHOLDER.data name
      (replaceList PEP_CODE_PITH_ROOT_PARAM_NAME_PLACEHOLDER.data name t) =
    replaceList PEP_CODE_PITH_ROOT_PARAM_NAME_PLACEHOLDER.data name t := by
  have hp : (PEP_CODE_PITH_ROOT_PARAM_NAME_PLACEHOLDER.data).head? =
      some '?' := by decide
  have hr : '?' ∉ name := by
    intro hmem
    exact absurd (hname '?' hmem) (by decide)
  have h1 : '?' ∉ replaceList PEP_CODE_PITH_ROOT_PARAM_NAME_PLACEHOLDER.data
      name t :=
    replaceFuel_keeps_noQ _ name hr t.length t ht
  exact replaceFuel_id_of_noQ _ name hp _ _ h1

/-- Closed witness for `root_name_substitution_idempotent` on a concrete
template fragment holding one placeholder occurrence and the identifier
`val`. -/
theorem root_name_substitution_idempotent_witness :
    replaceList PEP_CODE_PITH_ROOT_PARAM_NAME_PLACEHOLDER.data
      ("val".data)
      (replaceList PEP_CODE_PITH_ROOT_PARAM_NAME_PLACEHOLDER.data
        ("val".data) ("pith_name=?|PITH_ROOT_NAME`^,".data)) =
    replaceList PEP_CODE_PITH_ROOT_PARAM_NAME_PLACEHOLDER.data
      ("val".data) ("pith_name=?|PITH_ROOT_NAME`^,".data) :=
  root_name_substitution_idempotent ("pith_name=?|PITH_ROOT_NAME`^,".data)
    ("val".data) (by decide) (by decide)

-- ....................  is_type_subclass (C10)  ....................

/-- A Python object as seen by `is_type_subclass`: either a class (drawn from
an abstract universe `C` of classes) or any non-class value. -/
inductive PyObj (C : Type) where
  | cls (c : C)
  | nonClass

/-- A valid `base_classes` argument (the `TestableTypes` hint): a single
class or a tuple of classes. -/
inductive Testable (C : Type) where
  | one (b : C)
  | tup (bs : List C)

/-- The `base_classes` argument is valid per the claim: a class, or a
non-empty tuple of classes. -/
def validTestable {C : Type} : Testable C → Prop
  | .one _ => True
  | .tup bs => bs ≠ []

/-- Python `issubclass(c, b)` on a class first argument, parameterized by the
subclass relation `sub` of the class universe: against a tuple it holds iff
it holds for at least one member. -/
def issubclassCls {C : Type} (sub : C → C → Bool) (c : C) (b : Testable C) :
    Bool :=
  match b with
  | .one x => sub c x
  | .tup bs => bs.any (sub c)

/-- The builtin `issubclass`, which raises `TypeError` when its first
argument is not a class. -/
def issubclassBuiltin {C : Type} (sub : C → C → Bool) (o : PyObj C)
    (b : Testable C) : Except String Bool :=
  match o with
  | .nonClass => .error "TypeError: issubclass() arg 1 must be a class"
  | .cls c => .ok (issubclassCls sub c b)

/-- `is_type_subclass` from `utilclstest.py`:
`isinstance(cls, type) and issubclass(cls, base_classes)` — a total boolean
function that never raises. -/
def is_type_subclass {C : Type} (sub : C → C → Bool) (o : PyObj C)
    (b : Testable C) : Bool :=
  match o with
  | .nonClass => false
  | .cls c => issubclassCls sub c b

/-- C10: on any non-class object `is_type_subclass` returns `False` (without
raising — it is a total function) where the builtin `issubclass` raises
`TypeError`; and it returns `True` exactly when the object is a class that is
a subclass of the given class, or of at least one class of the given
tuple. -/
theorem is_type_subclass_safe {C : Type} (sub : C → C → Bool)
    (o : PyObj C) (b : Testable C) (hb : validTestable b) :
    (o = PyObj.nonClass →
      is_type_subclass sub o b = false ∧
      ∃ e, issubclassBuiltin sub o b = Except.error e) ∧
    (is_type_subclass sub o b = true ↔
      ∃ c, o = PyObj.cls c ∧
        (match b with
         | .one x => sub c x = true
         | .tup bs => ∃ x ∈ bs, sub c x = true)) ∧
    (∀ c, o = PyObj.cls c →
      is_type_subclass sub o b = issubclassCls sub c b) := by
  refine ⟨?_, ?_, ?_⟩
  · rintro rfl
    exact ⟨rfl, _, rfl⟩
  · constructor
    · intro h
      cases o with
      | nonClass => exact absurd h (by simp [is_type_subclass])
      | cls c =>
          refine ⟨c, rfl, ?_⟩
          cases b with
          | one x => exact h
          | tup bs =>
              have h2 : bs.any (sub c) = true := h
              obtain ⟨x, hx, hsx⟩ := List.any_eq_true.mp h2
              exact ⟨x, hx, hsx⟩
    · rintro ⟨c, rfl, hc⟩
      cases b with
      | one x => exact hc
      | tup bs =>
          show bs.any (sub c) = true
          obtain ⟨x, hx, hsx⟩ := hc
          exact List.any_eq_true.mpr ⟨x, hx, hsx⟩
  · rintro c rfl
    rfl

/-- Closed witness for `is_type_subclass_safe`: a non-class object tested
against the single class `0` in the universe `Nat` with equality as the
subclass relation. -/
theorem is_type_subclass_safe_witness :
    is_type_subclass (fun a b : Nat => a == b) PyObj.nonClass
      (Testable.one 0) = false ∧
    (∃ e, issubclassBuiltin (fun a b : Nat => a == b) PyObj.nonClass
      (Testable.one 0) = Except.error e) :=
  (is_type_subclass_safe (fun a b : Nat => a == b) PyObj.nonClass
    (Testable.one 0) trivial).1 rfl
